import Mathlib

/-!
Verification of the partial-update framebuffer engine of `src/display.rs`.

The embedding translates the tile-based dirty tracker, the buffer draw
target, the flush planner inside `update_with_buffer`, and the delayed
tile clear of `clear_buffer` into executable Lean definitions, and proves
the specification claims about them.

Machine integers: the Rust code uses `u16`/`usize`/`i32`.  None of the
`usize`/`u16` arithmetic in the translated functions can overflow at the
display dimensions involved, so those values are modelled as `Nat`; `i32`
screen coordinates (which may be negative) are modelled as `Int`, and the
lossy Rust casts `as u16` are modelled explicitly by reduction mod 2^16.
-/

namespace PixelsRs

/-- Display width in pixels.  `config.rs` is not part of the source tree,
but `rm67162.rs` documents the panel as 240x536 used in `Deg270` rotation
(`FRAMEBUFFER_SIZE = (DISPLAY_WIDTH, DISPLAY_HEIGHT)`), and the comments
in `display.rs` pin the tile grid to 17 tiles wide and 8 tiles high, which
forces `DISPLAY_WIDTH = 536`, `DISPLAY_HEIGHT = 240`. -/
def DISPLAY_WIDTH : Nat := 536

/-- Display height in pixels (see `DISPLAY_WIDTH`). -/
def DISPLAY_HEIGHT : Nat := 240

/-- `const TILE_SIZE: u16 = 32;` -/
def TILE_SIZE : Nat := 32

/-- `const TILES_X: usize = DISPLAY_WIDTH.div_ceil(TILE_SIZE) as usize;` (= 17) -/
def TILES_X : Nat := (DISPLAY_WIDTH + TILE_SIZE - 1) / TILE_SIZE

/-- `const TILES_Y: usize = DISPLAY_HEIGHT.div_ceil(TILE_SIZE) as usize;` (= 8) -/
def TILES_Y : Nat := (DISPLAY_HEIGHT + TILE_SIZE - 1) / TILE_SIZE

/-- `const TOTAL_TILES: usize = TILES_X * TILES_Y;` (= 136) -/
def TOTAL_TILES : Nat := TILES_X * TILES_Y

/-- The 16-bit packed color type `Rgb565`; the engine never inspects the
encoding, so the raw 16-bit word is modelled as a natural number. -/
abbrev Rgb565 := Nat

/-- `Rgb565::BLACK` -/
def BLACK : Rgb565 := 0

/-- Rust `v as u16` on an `i32` value: two's-complement truncation,
i.e. reduction modulo 2^16. -/
def toU16 (v : Int) : Nat := (v % 65536).toNat

/-- `struct TileTracker { dirty: [bool; TOTAL_TILES] }`.  The fixed
boolean array is modelled as a total function on indices; only indices
`< TOTAL_TILES` are ever read (`is_dirty` repeats the source's bound
check). -/
structure TileTracker where
  dirty : Nat → Bool

namespace TileTracker

/-- `TileTracker::new()` — all tiles clean. -/
def new : TileTracker := ⟨fun _ => false⟩

/-- `self.dirty[tile_idx] = true` guarded by `tile_idx < TOTAL_TILES`
(the body of the nested loops of `mark_rect`). -/
def setIdx (t : TileTracker) (idx : Nat) : TileTracker :=
  if idx < TOTAL_TILES then ⟨fun j => if j = idx then true else t.dirty j⟩ else t

/-- `TileTracker::mark_rect` (`display.rs` lines 72-91): clamp the corner
coordinates to the last pixel column/row, convert to an inclusive tile
range, and set every tile in that range. -/
def mark_rect (t : TileTracker) (x1 y1 x2 y2 : Nat) : TileTracker :=
  let min_x := min (min x1 x2) (DISPLAY_WIDTH - 1)
  let max_x := min (max x1 x2) (DISPLAY_WIDTH - 1)
  let min_y := min (min y1 y2) (DISPLAY_HEIGHT - 1)
  let max_y := min (max y1 y2) (DISPLAY_HEIGHT - 1)
  let tile_x1 := min_x / TILE_SIZE
  let tile_x2 := max_x / TILE_SIZE
  let tile_y1 := min_y / TILE_SIZE
  let tile_y2 := max_y / TILE_SIZE
  (List.range' tile_y1 (tile_y2 + 1 - tile_y1)).foldl
    (fun acc ty =>
      (List.range' tile_x1 (tile_x2 + 1 - tile_x1)).foldl
        (fun acc2 tx => acc2.setIdx (ty * TILES_X + tx)) acc)
    t

/-- `TileTracker::clear()` -/
def clear (_t : TileTracker) : TileTracker := ⟨fun _ => false⟩

/-- `TileTracker::is_dirty(tile_idx)` = `tile_idx < TOTAL_TILES && self.dirty[tile_idx]`. -/
def is_dirty (t : TileTracker) (idx : Nat) : Bool :=
  decide (idx < TOTAL_TILES) && t.dirty idx

end TileTracker

/-- One pixel handed to `BufferDrawTarget::draw_iter`: coordinate (`i32`
point, possibly out of bounds) and color. -/
abbrev PixelItem := Int × Int × Rgb565

/-- The body of the loop in `BufferDrawTarget::draw_iter` for one pixel:
write the color iff `0 <= x < width`, `0 <= y < height` and the linear
index is inside the buffer; otherwise leave the buffer unchanged. -/
def set_pixel (width height : Nat) (buffer : List Rgb565) (p : PixelItem) : List Rgb565 :=
  if 0 ≤ p.1 ∧ p.1 < (width : Int) ∧ 0 ≤ p.2.1 ∧ p.2.1 < (height : Int) then
    let index := p.2.1.toNat * width + p.1.toNat
    if index < buffer.length then buffer.set index p.2.2 else buffer
  else buffer

/-- `BufferDrawTarget::draw_iter` (`display.rs` lines 112-129): fold the
per-pixel bounds-checked write over the pixel iterator.  The Rust error
type is `Infallible`, so the result is the new buffer directly. -/
def draw_iter (buffer : List Rgb565) (width height : Nat) (pixels : List PixelItem) : List Rgb565 :=
  pixels.foldl (fun buf p => set_pixel width height buf p) buffer

/-- The dirty-marking step of `Display::draw_line` (`display.rs` lines
288-293).  The `i32` arithmetic and the lossy `as u16` casts are kept
exactly: `x1 = start.x.max(0).saturating_sub(2) as u16` (saturation of the
`i32` subtraction never triggers for on-screen-representable inputs, but
the cast wraps negative values), `x2 = (end.x.max(0) + 2).min(W-1) as u16`,
and likewise for y.  The rasterization of the styled line itself is done
by the external embedded-graphics crate through `draw_iter`. -/
def draw_line_mark (t : TileTracker) (sx sy ex ey : Int) : TileTracker :=
  let x1 := toU16 (max sx 0 - 2)
  let y1 := toU16 (max sy 0 - 2)
  let x2 := toU16 (min (max ex 0 + 2) ((DISPLAY_WIDTH : Int) - 1))
  let y2 := toU16 (min (max ey 0 + 2) ((DISPLAY_HEIGHT : Int) - 1))
  t.mark_rect x1 y1 x2 y2

/-- A rectangular transfer span, in display pixel coordinates (the
arguments of `set_pixels` in `update_with_buffer`). -/
structure Span where
  x_start : Nat
  x_end : Nat
  y_start : Nat
  y_end : Nat
deriving DecidableEq, Repr

/-- The span emitted when a horizontal batch that started at tile column
`s` ends at tile column `tx` (exclusive) in tile row `ty`
(`display.rs` lines 322-327). -/
def mkSpan (ty s tx : Nat) : Span :=
  { x_start := s * TILE_SIZE
    x_end := min (tx * TILE_SIZE) DISPLAY_WIDTH - 1
    y_start := ty * TILE_SIZE
    y_end := min ((ty + 1) * TILE_SIZE) DISPLAY_HEIGHT - 1 }

/-- The inner loop of `update_with_buffer` over `tile_x in 0..=TILES_X`
for one tile row, carrying `batch_start`.  `fuel` counts the remaining
loop iterations (the top-level call uses `TILES_X + 1`); `isD idx` is
`current_tiles.is_dirty(idx) || prev_tiles.is_dirty(idx)`. -/
def rowGo (isD : Nat → Bool) (ty : Nat) : Nat → Nat → Option Nat → List Span
  | 0, _, _ => []
  | fuel + 1, tx, batch =>
    let d := decide (tx < TILES_X) && isD (ty * TILES_X + tx)
    match batch with
    | none => if d then rowGo isD ty fuel (tx + 1) (some tx)
              else rowGo isD ty fuel (tx + 1) none
    | some s => if d then rowGo isD ty fuel (tx + 1) (some s)
                else mkSpan ty s tx :: rowGo isD ty fuel (tx + 1) none

/-- The spans emitted for tile row `ty`, in emission order. -/
def spansRow (isD : Nat → Bool) (ty : Nat) : List Span :=
  rowGo isD ty (TILES_X + 1) 0 none

/-- The spans of tile rows `0, .., n-1`, concatenated in row order
(the outer `tile_y in 0..TILES_Y` loop of `update_with_buffer`). -/
def allRows (isD : Nat → Bool) : Nat → List Span
  | 0 => []
  | n + 1 => allRows isD n ++ spansRow isD n

/-- The ordered list of spans `update_with_buffer` transfers for the
given current-frame and delayed-clear (previous-frame) trackers. -/
def computeSpans (cur prev : TileTracker) : List Span :=
  allRows (fun idx => cur.is_dirty idx || prev.is_dirty idx) TILES_Y

/-- The pixel stream read from the (post-swap) front buffer for one span
(`batch_pixels` in `update_with_buffer`, lines 329-338): for each row of
the span, the slice `[row_start, row_start + batch_width)`. -/
def spanPixels (front : List Rgb565) (sp : Span) : List Rgb565 :=
  (List.range' sp.y_start (sp.y_end + 1 - sp.y_start)).foldr
    (fun y acc =>
      ((front.drop (y * DISPLAY_WIDTH + sp.x_start)).take (sp.x_end + 1 - sp.x_start)) ++ acc)
    []

/-- The in-memory state of `struct Display` that the claims concern:
the two pixel buffers and the two tile trackers (the mipidsi display
handle is the external transport sink, abstracted as a send function). -/
structure DisplayState where
  front_buffer : List Rgb565
  back_buffer : List Rgb565
  current_tiles : TileTracker
  prev_tiles : TileTracker

/-- Attempt the spans in order against the transport sink `send` (the
`set_pixels` calls of `update_with_buffer`), reading each span's pixel
stream from `front`.  Returns the spans attempted, in order, and whether
all of them succeeded; a failed transfer stops the loop (the `?` early
return in the Rust). -/
def sendSpans (send : Span → List Rgb565 → Bool) (front : List Rgb565) :
    List Span → List Span × Bool
  | [] => ([], true)
  | sp :: rest =>
    if send sp (spanPixels front sp) then
      let r := sendSpans send front rest
      (sp :: r.1, r.2)
    else ([sp], false)

/-- `Display::update_with_buffer` (`display.rs` lines 301-354): swap the
buffers first, attempt every batched span in row-major order (aborting on
the first transfer error), and only if all transfers succeeded replace
the delayed-clear tracker by the current one and clear the current one.
Returns the new state, the spans attempted, and the success flag (`false`
models the early `Err` return, in which case the trackers are untouched
but the swap has already happened). -/
def update_with_buffer (send : Span → List Rgb565 → Bool) (st : DisplayState) :
    DisplayState × List Span × Bool :=
  let front1 := st.back_buffer
  let back1 := st.front_buffer
  let spans := computeSpans st.current_tiles st.prev_tiles
  let r := sendSpans send front1 spans
  if r.2 then
    (⟨front1, back1, st.current_tiles.clear, st.current_tiles⟩, r.1, true)
  else
    (⟨front1, back1, st.current_tiles, st.prev_tiles⟩, r.1, false)

/-- `Display::draw_colored_point` (`display.rs` lines 359-388): mark the
clamped 3x3 rectangle around `position` dirty and fill the 3x3 block into
the back buffer.  The `Rectangle::new(position - (1,1), 3x3).fill` of the
external embedded-graphics crate rasterizes exactly the nine pixels of
that block, fed through `draw_iter`. -/
def draw_colored_point (st : DisplayState) (px py : Int) (color : Rgb565) : DisplayState :=
  let x := toU16 (max (px - 1) 0)
  let y := toU16 (max (py - 1) 0)
  let x2 := toU16 (min (px + 1) ((DISPLAY_WIDTH : Int) - 1))
  let y2 := toU16 (min (py + 1) ((DISPLAY_HEIGHT : Int) - 1))
  let pixels : List PixelItem :=
    [(px - 1, py - 1, color), (px, py - 1, color), (px + 1, py - 1, color),
     (px - 1, py, color), (px, py, color), (px + 1, py, color),
     (px - 1, py + 1, color), (px, py + 1, color), (px + 1, py + 1, color)]
  { st with
    current_tiles := st.current_tiles.mark_rect x y x2 y2
    back_buffer := draw_iter st.back_buffer DISPLAY_WIDTH DISPLAY_HEIGHT pixels }

/-- `slice.fill(Rgb565::BLACK)` on the index range `[a, b)` of a buffer
(structural recursion over the list, decrementing the bounds). -/
def fillRange (c : Rgb565) : List Rgb565 → Nat → Nat → List Rgb565
  | [], _, _ => []
  | v :: rest, a, b =>
    (if a = 0 ∧ 0 < b then c else v) :: fillRange c rest (a - 1) (b - 1)

/-- The row loop `for y in y_start..y_end` of `clear_buffer` for one tile:
fill `[y*W + xs, y*W + xe)` with black for `count` consecutive rows
starting at row `y0`. -/
def fillRows (xs xe : Nat) : List Rgb565 → Nat → Nat → List Rgb565
  | buf, _, 0 => buf
  | buf, y0, count + 1 =>
    fillRows xs xe (fillRange BLACK buf (y0 * DISPLAY_WIDTH + xs) (y0 * DISPLAY_WIDTH + xe))
      (y0 + 1) count

/-- Clearing of one tile in `clear_buffer` (`display.rs` lines 395-408):
compute the tile's clipped pixel extent and black-fill each of its rows. -/
def clearTile (buf : List Rgb565) (tileIdx : Nat) : List Rgb565 :=
  let tile_x := tileIdx % TILES_X
  let tile_y := tileIdx / TILES_X
  let x_start := tile_x * TILE_SIZE
  let y_start := tile_y * TILE_SIZE
  let x_end := min ((tile_x + 1) * TILE_SIZE) DISPLAY_WIDTH
  let y_end := min ((tile_y + 1) * TILE_SIZE) DISPLAY_HEIGHT
  fillRows x_start x_end buf y_start (y_end - y_start)

/-- The tile loop of `clear_buffer` over `tile_idx in 0..n`: clear every
tile of the delayed-clear tracker. -/
def clearTiles (prev : TileTracker) (buf : List Rgb565) : Nat → List Rgb565
  | 0 => buf
  | n + 1 =>
    let buf1 := clearTiles prev buf n
    if prev.is_dirty n then clearTile buf1 n else buf1

/-- `Display::clear_buffer` (`display.rs` lines 391-411): black-fill, in
the back buffer only, every tile recorded in the delayed-clear tracker;
nothing else changes. -/
def clear_buffer (st : DisplayState) : DisplayState :=
  { st with back_buffer := clearTiles st.prev_tiles st.back_buffer TOTAL_TILES }

/-! ### Lemmas about the tile tracker -/

theorem setIdx_is_dirty (t : TileTracker) (k j : Nat) :
    (t.setIdx k).is_dirty j =
      (t.is_dirty j || (decide (j = k) && decide (k < TOTAL_TILES))) := by
  simp only [TileTracker.setIdx, TileTracker.is_dirty]
  by_cases hk : k < TOTAL_TILES
  · simp only [if_pos hk]
    by_cases hj : j = k
    · subst hj; simp [hk]
    · simp [hj]
  · simp [hk]

theorem foldl_setIdx_inner (txs : List Nat) (ty : Nat) (t : TileTracker) (j : Nat) :
    (txs.foldl (fun acc2 tx => acc2.setIdx (ty * TILES_X + tx)) t).is_dirty j =
      (t.is_dirty j ||
        txs.any (fun tx =>
          decide (j = ty * TILES_X + tx) && decide (ty * TILES_X + tx < TOTAL_TILES))) := by
  induction txs generalizing t with
  | nil => simp
  | cons a l ih => simp [ih, setIdx_is_dirty, Bool.or_assoc]

theorem foldl_setIdx_outer (tys txs : List Nat) (t : TileTracker) (j : Nat) :
    ((tys.foldl
        (fun acc ty => txs.foldl (fun acc2 tx => acc2.setIdx (ty * TILES_X + tx)) acc)
        t).is_dirty j) =
      (t.is_dirty j ||
        tys.any (fun ty => txs.any (fun tx =>
          decide (j = ty * TILES_X + tx) && decide (ty * TILES_X + tx < TOTAL_TILES)))) := by
  induction tys generalizing t with
  | nil => simp
  | cons a l ih => simp [ih, foldl_setIdx_inner, Bool.or_assoc]

/-- Full characterization of `mark_rect`: tile `j` is dirty afterwards
iff it was dirty before, or `j` is an in-grid tile index lying in the
inclusive tile range of the corner-clamped rectangle. -/
theorem mark_rect_is_dirty (t : TileTracker) (x1 y1 x2 y2 j : Nat) :
    (t.mark_rect x1 y1 x2 y2).is_dirty j = true ↔
      (t.is_dirty j = true ∨ ∃ ty tx,
        (min (min y1 y2) (DISPLAY_HEIGHT - 1)) / TILE_SIZE ≤ ty ∧
        ty ≤ (min (max y1 y2) (DISPLAY_HEIGHT - 1)) / TILE_SIZE ∧
        (min (min x1 x2) (DISPLAY_WIDTH - 1)) / TILE_SIZE ≤ tx ∧
        tx ≤ (min (max x1 x2) (DISPLAY_WIDTH - 1)) / TILE_SIZE ∧
        j = ty * TILES_X + tx ∧ j < TOTAL_TILES) := by
  have hx : (min (min x1 x2) (DISPLAY_WIDTH - 1)) / TILE_SIZE ≤
      (min (max x1 x2) (DISPLAY_WIDTH - 1)) / TILE_SIZE :=
    Nat.div_le_div_right (by omega)
  have hy : (min (min y1 y2) (DISPLAY_HEIGHT - 1)) / TILE_SIZE ≤
      (min (max y1 y2) (DISPLAY_HEIGHT - 1)) / TILE_SIZE :=
    Nat.div_le_div_right (by omega)
  simp only [TileTracker.mark_rect, foldl_setIdx_outer, Bool.or_eq_true,
    List.any_eq_true, List.mem_range'_1, Bool.and_eq_true, decide_eq_true_eq]
  constructor
  · rintro (h | ⟨ty, ⟨hty1, hty2⟩, tx, ⟨htx1, htx2⟩, hj, hlt⟩)
    · exact Or.inl h
    · exact Or.inr ⟨ty, tx, hty1, by omega, htx1, by omega, hj, by omega⟩
  · rintro (h | ⟨ty, tx, hty1, hty2, htx1, htx2, hj, hlt⟩)
    · exact Or.inl h
    · exact Or.inr ⟨ty, ⟨hty1, by omega⟩, tx, ⟨htx1, by omega⟩, hj, by omega⟩

/-! ### Lemmas about the buffer draw target -/

theorem draw_iter_cons (buf : List Rgb565) (w h : Nat) (p : PixelItem) (ps : List PixelItem) :
    draw_iter buf w h (p :: ps) = draw_iter (set_pixel w h buf p) w h ps := rfl

theorem set_pixel_length (w h : Nat) (buf : List Rgb565) (p : PixelItem) :
    (set_pixel w h buf p).length = buf.length := by
  unfold set_pixel
  split
  · dsimp only
    split
    · simp
    · rfl
  · rfl

theorem draw_iter_length (w h : Nat) (ps : List PixelItem) (buf : List Rgb565) :
    (draw_iter buf w h ps).length = buf.length := by
  induction ps generalizing buf with
  | nil => rfl
  | cons p ps ih => rw [draw_iter_cons, ih, set_pixel_length]

theorem set_pixel_getElem_unchanged (w h : Nat) (buf : List Rgb565) (p : PixelItem) (i : Nat)
    (hp : ¬(0 ≤ p.1 ∧ p.1 < (w : Int) ∧ 0 ≤ p.2.1 ∧ p.2.1 < (h : Int) ∧
            p.2.1.toNat * w + p.1.toNat = i)) :
    (set_pixel w h buf p)[i]? = buf[i]? := by
  unfold set_pixel
  split
  · rename_i hin
    dsimp only
    split
    · have hne : p.2.1.toNat * w + p.1.toNat ≠ i := by
        intro he
        exact hp ⟨hin.1, hin.2.1, hin.2.2.1, hin.2.2.2, he⟩
      exact List.getElem?_set_ne hne
    · rfl
  · rfl

/-- Pixels whose coordinate is out of bounds (or which target a different
cell) leave a buffer cell unchanged. -/
theorem draw_iter_getElem_unchanged (w h : Nat) (ps : List PixelItem) (buf : List Rgb565) (i : Nat)
    (hp : ∀ p ∈ ps, ¬(0 ≤ p.1 ∧ p.1 < (w : Int) ∧ 0 ≤ p.2.1 ∧ p.2.1 < (h : Int) ∧
            p.2.1.toNat * w + p.1.toNat = i)) :
    (draw_iter buf w h ps)[i]? = buf[i]? := by
  induction ps generalizing buf with
  | nil => rfl
  | cons p ps ih =>
    rw [draw_iter_cons, ih _ (fun q hq => hp q (List.mem_cons_of_mem _ hq)),
      set_pixel_getElem_unchanged _ _ _ _ _ (hp p (List.mem_cons_self _ _))]

/-- An in-bounds pixel write on a full-size buffer lands in its cell. -/
theorem draw_iter_singleton_write (buf : List Rgb565) (x y : Int) (c : Rgb565)
    (hlen : buf.length = DISPLAY_WIDTH * DISPLAY_HEIGHT)
    (hx0 : 0 ≤ x) (hx1 : x < (DISPLAY_WIDTH : Int))
    (hy0 : 0 ≤ y) (hy1 : y < (DISPLAY_HEIGHT : Int)) :
    (draw_iter buf DISPLAY_WIDTH DISPLAY_HEIGHT
        [(x, y, c)])[y.toNat * DISPLAY_WIDTH + x.toNat]? = some c := by
  have hxw : x.toNat < DISPLAY_WIDTH := by
    simp only [DISPLAY_WIDTH] at hx1 ⊢; omega
  have hyh : y.toNat < DISPLAY_HEIGHT := by
    simp only [DISPLAY_HEIGHT] at hy1 ⊢; omega
  have hidx : y.toNat * DISPLAY_WIDTH + x.toNat < buf.length := by
    rw [hlen]
    simp only [DISPLAY_WIDTH, DISPLAY_HEIGHT] at hxw hyh ⊢
    omega
  simp [draw_iter, set_pixel, hx0, hx1, hy0, hy1, hidx, List.getElem?_set_self]

/-! ### Lemmas about the transfer loop -/

theorem sendSpans_ok (send : Span → List Rgb565 → Bool) (front : List Rgb565)
    (l : List Span) (h : ∀ sp ∈ l, send sp (spanPixels front sp) = true) :
    sendSpans send front l = (l, true) := by
  induction l with
  | nil => rfl
  | cons sp rest ih =>
    unfold sendSpans
    rw [if_pos (h sp (List.mem_cons_self _ _)),
      ih (fun q hq => h q (List.mem_cons_of_mem _ hq))]

theorem sendSpans_fail (send : Span → List Rgb565 → Bool) (front : List Rgb565)
    (l : List Span) (h : ∃ sp ∈ l, send sp (spanPixels front sp) = false) :
    ∃ k sp, l[k]? = some sp ∧ send sp (spanPixels front sp) = false ∧
      (∀ j q, j < k → l[j]? = some q → send q (spanPixels front q) = true) ∧
      sendSpans send front l = (l.take (k + 1), false) := by
  induction l with
  | nil => simp at h
  | cons sp0 rest ih =>
    by_cases h0 : send sp0 (spanPixels front sp0) = true
    · have hrest : ∃ sp ∈ rest, send sp (spanPixels front sp) = false := by
        rcases h with ⟨sp, hmem, hsp⟩
        rcases List.mem_cons.mp hmem with he | hm
        · subst he; rw [h0] at hsp; cases hsp
        · exact ⟨sp, hm, hsp⟩
      rcases ih hrest with ⟨k, sp, hget, hfail, hpre, heq⟩
      refine ⟨k + 1, sp, by simpa using hget, hfail, ?_, ?_⟩
      · intro j q hj hq
        cases j with
        | zero =>
          simp only [List.getElem?_cons_zero, Option.some.injEq] at hq
          rw [hq] at h0; exact h0
        | succ j =>
          exact hpre j q (by omega) (by simpa using hq)
      · unfold sendSpans
        rw [if_pos h0, heq]
        simp [List.take_succ_cons]
    · refine ⟨0, sp0, by simp, by simpa using h0, ?_, ?_⟩
      · intro j q hj hq; omega
      · unfold sendSpans
        rw [if_neg h0]
        simp

/-! ### Lemmas about the flush planner -/

/-- Every span of a tile row carries that row's full vertical extent. -/
theorem rowGo_y (isD : Nat → Bool) (ty : Nat) :
    ∀ fuel tx batch sp, sp ∈ rowGo isD ty fuel tx batch →
      sp.y_start = ty * TILE_SIZE ∧
      sp.y_end = min ((ty + 1) * TILE_SIZE) DISPLAY_HEIGHT - 1 := by
  intro fuel
  induction fuel with
  | zero => intro tx batch sp hsp; simp [rowGo] at hsp
  | succ fuel ih =>
    intro tx batch sp hsp
    cases batch with
    | none =>
      simp only [rowGo] at hsp
      split at hsp
      · exact ih _ _ _ hsp
      · exact ih _ _ _ hsp
    | some s =>
      simp only [rowGo] at hsp
      split at hsp
      · exact ih _ _ _ hsp
      · rcases List.mem_cons.mp hsp with he | hm
        · subst he; exact ⟨rfl, rfl⟩
        · exact ih _ _ _ hm

/-- Every span produced from column `tx` on (with an open batch started
at `s`) starts no earlier than pixel column `s * TILE_SIZE` (resp.
`tx * TILE_SIZE` with no open batch). -/
theorem rowGo_x_lower (isD : Nat → Bool) (ty : Nat) :
    ∀ fuel tx batch, (∀ s, batch = some s → s ≤ tx) →
      ∀ sp ∈ rowGo isD ty fuel tx batch,
        (match batch with | some s => s | none => tx) * TILE_SIZE ≤ sp.x_start := by
  intro fuel
  induction fuel with
  | zero => intro tx batch _ sp hsp; simp [rowGo] at hsp
  | succ fuel ih =>
    intro tx batch hb sp hsp
    cases batch with
    | none =>
      simp only [rowGo] at hsp
      split at hsp
      · exact ih (tx + 1) (some tx) (fun s hs => by cases hs; omega) sp hsp
      · have h1 : (tx + 1) * TILE_SIZE ≤ sp.x_start :=
          ih (tx + 1) none (fun s hs => by cases hs) sp hsp
        show tx * TILE_SIZE ≤ sp.x_start
        exact le_trans (Nat.mul_le_mul_right _ (by omega)) h1
    | some s =>
      have hstx : s ≤ tx := hb s rfl
      simp only [rowGo] at hsp
      split at hsp
      · exact ih (tx + 1) (some s) (fun u hu => by cases hu; omega) sp hsp
      · rcases List.mem_cons.mp hsp with he | hm
        · subst he; simp [mkSpan]
        · have h1 : (tx + 1) * TILE_SIZE ≤ sp.x_start :=
            ih (tx + 1) none (fun u hu => by cases hu) sp hm
          have hmul : s * TILE_SIZE ≤ (tx + 1) * TILE_SIZE :=
            Nat.mul_le_mul_right _ (by omega)
          show s * TILE_SIZE ≤ sp.x_start
          exact le_trans hmul h1

/-- Every emitted span stays inside the display. -/
theorem rowGo_bounds (isD : Nat → Bool) (ty : Nat) (hty : ty < TILES_Y) :
    ∀ fuel tx batch, (∀ s, batch = some s → s < TILES_X ∧ s < tx) →
      ∀ sp ∈ rowGo isD ty fuel tx batch,
        sp.x_start ≤ sp.x_end ∧ sp.x_end < DISPLAY_WIDTH ∧
        sp.y_start ≤ sp.y_end ∧ sp.y_end < DISPLAY_HEIGHT := by
  intro fuel
  induction fuel with
  | zero => intro tx batch _ sp hsp; simp [rowGo] at hsp
  | succ fuel ih =>
    intro tx batch hb sp hsp
    cases batch with
    | none =>
      simp only [rowGo] at hsp
      split at hsp
      · rename_i hd
        have htx : tx < TILES_X := by
          have := (Bool.and_eq_true _ _).mp hd
          exact of_decide_eq_true this.1
        exact ih (tx + 1) (some tx) (fun s hs => by cases hs; omega) sp hsp
      · exact ih (tx + 1) none (fun s hs => by cases hs) sp hsp
    | some s =>
      obtain ⟨hs1, hs2⟩ := hb s rfl
      simp only [rowGo] at hsp
      split at hsp
      · exact ih (tx + 1) (some s) (fun u hu => by cases hu; omega) sp hsp
      · rcases List.mem_cons.mp hsp with he | hm
        · subst he
          simp only [mkSpan, TILES_X, TILES_Y, TILE_SIZE, DISPLAY_WIDTH, DISPLAY_HEIGHT]
            at hs1 hty ⊢
          omega
        · exact ih (tx + 1) none (fun u hu => by cases hu) sp hm

/-- Coverage invariant of the batching loop: a dirty tile column `tx0`
that is still ahead of the scan, or already inside the open batch,
ends up covered by some emitted span. -/
theorem rowGo_covers (isD : Nat → Bool) (ty : Nat) :
    ∀ fuel tx batch tx0, tx + fuel = TILES_X + 1 →
      (∀ s, batch = some s → s ≤ tx ∧ tx ≤ TILES_X) →
      tx0 < TILES_X → isD (ty * TILES_X + tx0) = true →
      (tx ≤ tx0 ∨ ∃ s, batch = some s ∧ s ≤ tx0 ∧ tx0 < tx) →
      ∃ sp ∈ rowGo isD ty fuel tx batch,
        sp.x_start ≤ tx0 * TILE_SIZE ∧
        min ((tx0 + 1) * TILE_SIZE) DISPLAY_WIDTH - 1 ≤ sp.x_end := by
  intro fuel
  induction fuel with
  | zero =>
    intro tx batch tx0 hfuel hb htx0 _ hstate
    rcases hstate with h | ⟨s, hs, _, h2⟩
    · omega
    · have := (hb s hs).2; omega
  | succ fuel ih =>
    intro tx batch tx0 hfuel hb htx0 hd0 hstate
    cases batch with
    | none =>
      have htx : tx ≤ tx0 := by
        rcases hstate with h | ⟨s, hs, _, _⟩
        · exact h
        · cases hs
      simp only [rowGo]
      split
      · rename_i hd
        have htxlt : tx < TILES_X :=
          of_decide_eq_true ((Bool.and_eq_true _ _).mp hd).1
        rcases Nat.lt_or_ge tx0 (tx + 1) with hlt | hge
        · have heq : tx = tx0 := by omega
          exact ih (tx + 1) (some tx) tx0 (by omega)
            (fun s hs => by cases hs; omega) htx0 hd0
            (Or.inr ⟨tx, rfl, by omega, by omega⟩)
        · exact ih (tx + 1) (some tx) tx0 (by omega)
            (fun s hs => by cases hs; omega) htx0 hd0 (Or.inl hge)
      · rename_i hd
        have hne : tx ≠ tx0 := fun he => hd (by rw [he]; simp [htx0, hd0])
        exact ih (tx + 1) none tx0 (by omega) (fun s hs => by cases hs)
          htx0 hd0 (Or.inl (by omega))
    | some s =>
      obtain ⟨hs1, hs2⟩ := hb s rfl
      simp only [rowGo]
      split
      · rename_i hd
        have htxlt : tx < TILES_X :=
          of_decide_eq_true ((Bool.and_eq_true _ _).mp hd).1
        rcases hstate with h | ⟨u, hu, hu1, hu2⟩
        · rcases Nat.lt_or_ge tx0 (tx + 1) with hlt | hge
          · have heq : tx = tx0 := by omega
            exact ih (tx + 1) (some s) tx0 (by omega)
              (fun u hu => by cases hu; omega) htx0 hd0
              (Or.inr ⟨s, rfl, by omega, by omega⟩)
          · exact ih (tx + 1) (some s) tx0 (by omega)
              (fun u hu => by cases hu; omega) htx0 hd0 (Or.inl hge)
        · cases hu
          exact ih (tx + 1) (some s) tx0 (by omega)
            (fun u hu => by cases hu; omega) htx0 hd0
            (Or.inr ⟨s, rfl, hu1, by omega⟩)
      · rename_i hd
        rcases hstate with h | ⟨u, hu, hu1, hu2⟩
        · have hne : tx ≠ tx0 := fun he => hd (by rw [he]; simp [htx0, hd0])
          have ⟨sp, hmem, hc⟩ := ih (tx + 1) none tx0 (by omega)
            (fun u hu => by cases hu) htx0 hd0 (Or.inl (by omega))
          exact ⟨sp, List.mem_cons_of_mem _ hmem, hc⟩
        · cases hu
          refine ⟨mkSpan ty s tx, List.mem_cons_self _ _, ?_, ?_⟩
          · simp only [mkSpan]
            exact Nat.mul_le_mul_right _ hu1
          · simp only [mkSpan, TILE_SIZE, DISPLAY_WIDTH, TILES_X] at htx0 ⊢
            omega

/-- A span of a tile row with index `< n` appears in `allRows _ n`. -/
theorem mem_allRows (isD : Nat → Bool) (ty n : Nat) (hty : ty < n) (sp : Span)
    (hsp : sp ∈ spansRow isD ty) : sp ∈ allRows isD n := by
  induction n with
  | zero => omega
  | succ n ih =>
    rcases Nat.lt_or_ge ty n with h | h
    · exact List.mem_append_left _ (ih h)
    · have : ty = n := by omega
      subst this
      exact List.mem_append_right _ hsp

/-- All spans of the full plan stay inside the display. -/
theorem allRows_bounds (isD : Nat → Bool) (n : Nat) (hn : n ≤ TILES_Y) :
    ∀ sp ∈ allRows isD n,
      sp.x_start ≤ sp.x_end ∧ sp.x_end < DISPLAY_WIDTH ∧
      sp.y_start ≤ sp.y_end ∧ sp.y_end < DISPLAY_HEIGHT := by
  induction n with
  | zero => intro sp hsp; simp [allRows] at hsp
  | succ n ih =>
    intro sp hsp
    rcases List.mem_append.mp hsp with h | h
    · exact ih (by omega) sp h
    · exact rowGo_bounds isD n (by omega) _ 0 none (fun s hs => by cases hs) sp h

/-- A span covers the whole pixel rectangle of tile columns `a..b` in
tile row `ty` (used to count the spans that cover a run of dirty tiles). -/
def coversTileRect (ty a b : Nat) (sp : Span) : Bool :=
  decide (sp.x_start ≤ a * TILE_SIZE ∧
          min ((b + 1) * TILE_SIZE) DISPLAY_WIDTH - 1 ≤ sp.x_end ∧
          sp.y_start ≤ ty * TILE_SIZE ∧
          min ((ty + 1) * TILE_SIZE) DISPLAY_HEIGHT - 1 ≤ sp.y_end)

/-- Exactness invariant of the batching loop for a maximal dirty run
`a..b`: the scan emits exactly one span covering the run's rectangle. -/
theorem rowGo_run_filter (isD : Nat → Bool) (ty a b : Nat)
    (hab : a ≤ b) (hb : b < TILES_X)
    (hrun : ∀ u, a ≤ u → u ≤ b → isD (ty * TILES_X + u) = true)
    (hleft : a = 0 ∨ isD (ty * TILES_X + (a - 1)) = false)
    (hright : b + 1 = TILES_X ∨ isD (ty * TILES_X + (b + 1)) = false) :
    ∀ fuel tx batch, tx + fuel = TILES_X + 1 →
      ((tx ≤ a ∧ (batch = none ∨ ∃ s, batch = some s ∧ s < tx ∧ 0 < tx ∧
          isD (ty * TILES_X + (tx - 1)) = true))
        ∨ (a < tx ∧ tx ≤ b + 1 ∧ batch = some a)) →
      (rowGo isD ty fuel tx batch).filter (coversTileRect ty a b) =
        [mkSpan ty a (b + 1)] := by
  have hbX : b < 17 := by simpa [TILES_X, DISPLAY_WIDTH, TILE_SIZE] using hb
  intro fuel
  induction fuel with
  | zero =>
    intro tx batch hfuel hstate
    have htX : TILES_X = 17 := by simp [TILES_X, DISPLAY_WIDTH, TILE_SIZE]
    rcases hstate with ⟨h1, _⟩ | ⟨h1, h2, _⟩ <;> omega
  | succ fuel ih =>
    intro tx batch hfuel hstate
    rcases hstate with ⟨hta, hbs⟩ | ⟨h1, h2, hbs⟩
    · rcases hbs with hnone | ⟨s, hsome, hslt, htxpos, hprev⟩
      · subst hnone
        simp only [rowGo]
        split
        · rename_i hd
          have htxlt : tx < TILES_X :=
            of_decide_eq_true ((Bool.and_eq_true _ _).mp hd).1
          rcases Nat.lt_or_ge tx a with hlt | hge
          · exact ih (tx + 1) (some tx) (by omega)
              (Or.inl ⟨by omega, Or.inr ⟨tx, rfl, by omega, by omega,
                by simpa using ((Bool.and_eq_true _ _).mp hd).2⟩⟩)
          · have heq : tx = a := by omega
            exact ih (tx + 1) (some tx) (by omega)
              (Or.inr ⟨by omega, by omega, by rw [heq]⟩)
        · rename_i hd
          have hne : tx ≠ a := by
            intro he
            exact hd (by rw [he]; simp [lt_of_le_of_lt hab hb, hrun a le_rfl hab])
          exact ih (tx + 1) none (by omega) (Or.inl ⟨by omega, Or.inl rfl⟩)
      · subst hsome
        have htxa : tx < a := by
          rcases Nat.lt_or_ge tx a with h | h
          · exact h
          · exfalso
            have heq : tx = a := by omega
            rcases hleft with h0 | hclean
            · omega
            · rw [heq] at hprev
              rw [hclean] at hprev
              cases hprev
        simp only [rowGo]
        split
        · rename_i hd
          exact ih (tx + 1) (some s) (by omega)
            (Or.inl ⟨by omega, Or.inr ⟨s, rfl, by omega, by omega,
              by simpa using ((Bool.and_eq_true _ _).mp hd).2⟩⟩)
        · rename_i hd
          have hcov : ¬(coversTileRect ty a b (mkSpan ty s tx) = true) := by
            simp only [coversTileRect, mkSpan, decide_eq_true_eq,
              TILE_SIZE, DISPLAY_WIDTH, DISPLAY_HEIGHT]
            rintro ⟨h1, h2, h3, h4⟩
            omega
          rw [List.filter_cons_of_neg hcov]
          exact ih (tx + 1) none (by omega) (Or.inl ⟨by omega, Or.inl rfl⟩)
    · subst hbs
      simp only [rowGo]
      rcases Nat.lt_or_ge tx (b + 1) with hlt | hge
      · split
        · rename_i hd
          exact ih (tx + 1) (some a) (by omega) (Or.inr ⟨by omega, by omega, rfl⟩)
        · rename_i hd
          exfalso
          exact hd (by simp [show tx < TILES_X by omega,
            hrun tx (by omega) (by omega)])
      · have heq : tx = b + 1 := by omega
        split
        · rename_i hd
          exfalso
          have hdt := (Bool.and_eq_true _ _).mp hd
          rcases hright with h17 | hclean
          · have : tx < TILES_X := of_decide_eq_true hdt.1
            omega
          · rw [heq] at hdt
            rw [hclean] at hdt
            cases hdt.2
        · rename_i hd
          have hcov : coversTileRect ty a b (mkSpan ty a tx) = true := by
            rw [heq]
            simp [coversTileRect, mkSpan]
          rw [List.filter_cons_of_pos hcov]
          have hrest : (rowGo isD ty fuel (tx + 1) none).filter
              (coversTileRect ty a b) = [] := by
            rw [List.filter_eq_nil_iff]
            intro sp hsp
            have hx : (tx + 1) * TILE_SIZE ≤ sp.x_start :=
              rowGo_x_lower isD ty fuel (tx + 1) none (fun u hu => by cases hu) sp hsp
            simp only [coversTileRect, decide_eq_true_eq, TILE_SIZE]
            rintro ⟨hc1, _, _, _⟩
            simp only [TILE_SIZE] at hx
            omega
          rw [hrest, heq]


/-- Spans of a different tile row never cover tile row `ty`'s vertical
extent. -/
theorem spansRow_other_filter (isD : Nat → Bool) (ty a b ty0 : Nat)
    (hty : ty < TILES_Y) (hne : ty0 ≠ ty) :
    (spansRow isD ty0).filter (coversTileRect ty a b) = [] := by
  rw [List.filter_eq_nil_iff]
  intro sp hsp
  obtain ⟨hys, hye⟩ := rowGo_y isD ty0 _ _ _ sp hsp
  simp only [coversTileRect, decide_eq_true_eq]
  rintro ⟨_, _, h3, h4⟩
  rw [hys] at h3
  rw [hye] at h4
  have hty8 : ty < 8 := by simpa [TILES_Y, DISPLAY_HEIGHT, TILE_SIZE] using hty
  simp only [TILE_SIZE, DISPLAY_HEIGHT] at h3 h4
  omega

/-- Rows `0..n-1` contribute no covering span when `ty ≥ n`. -/
theorem allRows_filter_ge (isD : Nat → Bool) (ty a b n : Nat)
    (hge : n ≤ ty) (htyY : ty < TILES_Y) :
    (allRows isD n).filter (coversTileRect ty a b) = [] := by
  induction n with
  | zero => rfl
  | succ n ih =>
    simp only [allRows, List.filter_append]
    rw [ih (by omega), spansRow_other_filter isD ty a b n htyY (by omega)]
    rfl

/-! ### Lemmas about the delayed tile clear -/

/-- The tile-grid index of the tile containing the pixel with linear
buffer index `i` (row `i / W`, column `i % W`). -/
def tileOfPixel (i : Nat) : Nat :=
  ((i / DISPLAY_WIDTH) / TILE_SIZE) * TILES_X + (i % DISPLAY_WIDTH) / TILE_SIZE

theorem fillRange_length (c : Rgb565) :
    ∀ (buf : List Rgb565) (a b : Nat), (fillRange c buf a b).length = buf.length := by
  intro buf
  induction buf with
  | nil => intro a b; rfl
  | cons v rest ih => intro a b; simp [fillRange, ih]

theorem fillRange_getElem_in (c : Rgb565) :
    ∀ (buf : List Rgb565) (a b i : Nat), a ≤ i → i < b → i < buf.length →
      (fillRange c buf a b)[i]? = some c := by
  intro buf
  induction buf with
  | nil => intro a b i _ _ h; simp at h
  | cons v rest ih =>
    intro a b i ha hb hlen
    cases i with
    | zero => simp [fillRange, show a = 0 by omega, show 0 < b by omega]
    | succ i =>
      simp only [fillRange, List.getElem?_cons_succ]
      exact ih (a - 1) (b - 1) i (by omega) (by omega) (by simpa using hlen)

theorem fillRange_getElem_out (c : Rgb565) :
    ∀ (buf : List Rgb565) (a b i : Nat), ¬(a ≤ i ∧ i < b) →
      (fillRange c buf a b)[i]? = buf[i]? := by
  intro buf
  induction buf with
  | nil => intro a b i _; rfl
  | cons v rest ih =>
    intro a b i h
    cases i with
    | zero => simp [fillRange, show ¬(a = 0 ∧ 0 < b) by omega]
    | succ i =>
      simp only [fillRange, List.getElem?_cons_succ]
      exact ih (a - 1) (b - 1) i (by omega)

theorem fillRows_length (xs xe : Nat) :
    ∀ (count y0 : Nat) (buf : List Rgb565),
      (fillRows xs xe buf y0 count).length = buf.length := by
  intro count
  induction count with
  | zero => intro y0 buf; rfl
  | succ count ih => intro y0 buf; simp [fillRows, ih, fillRange_length]

theorem fillRows_getElem_out (xs xe : Nat) :
    ∀ (count y0 : Nat) (buf : List Rgb565) (i : Nat),
      (∀ y, y0 ≤ y → y < y0 + count →
        ¬(y * DISPLAY_WIDTH + xs ≤ i ∧ i < y * DISPLAY_WIDTH + xe)) →
      (fillRows xs xe buf y0 count)[i]? = buf[i]? := by
  intro count
  induction count with
  | zero => intro y0 buf i _; rfl
  | succ count ih =>
    intro y0 buf i h
    simp only [fillRows]
    rw [ih (y0 + 1) _ i (fun y hy1 hy2 => h y (by omega) (by omega))]
    exact fillRange_getElem_out _ _ _ _ _ (h y0 le_rfl (by omega))

theorem fillRows_getElem_in (xs xe : Nat) (hxe : xe ≤ DISPLAY_WIDTH) :
    ∀ (count y0 : Nat) (buf : List Rgb565) (i y : Nat),
      y0 ≤ y → y < y0 + count →
      y * DISPLAY_WIDTH + xs ≤ i → i < y * DISPLAY_WIDTH + xe → i < buf.length →
      (fillRows xs xe buf y0 count)[i]? = some BLACK := by
  intro count
  induction count with
  | zero => intro y0 buf i y h1 h2 _ _ _; omega
  | succ count ih =>
    intro y0 buf i y h1 h2 h3 h4 hlen
    simp only [fillRows]
    by_cases hy : y = y0
    · subst hy
      rw [fillRows_getElem_out xs xe count (y + 1) _ i ?_]
      · exact fillRange_getElem_in BLACK buf _ _ i h3 h4 hlen
      · intro y1 hy1 hy2
        have hmul : (y + 1) * DISPLAY_WIDTH ≤ y1 * DISPLAY_WIDTH :=
          Nat.mul_le_mul_right _ hy1
        simp only [DISPLAY_WIDTH] at hmul h3 h4 hxe ⊢
        omega
    · exact ih (y0 + 1) _ i y (by omega) (by omega) h3 h4
        (by rw [fillRange_length]; exact hlen)

theorem clearTile_length (buf : List Rgb565) (t : Nat) :
    (clearTile buf t).length = buf.length := by
  simp [clearTile, fillRows_length]

theorem clearTile_getElem_in (buf : List Rgb565) (t i : Nat)
    (h1 : (t % TILES_X) * TILE_SIZE ≤ i % DISPLAY_WIDTH)
    (h2 : i % DISPLAY_WIDTH < min ((t % TILES_X + 1) * TILE_SIZE) DISPLAY_WIDTH)
    (h3 : (t / TILES_X) * TILE_SIZE ≤ i / DISPLAY_WIDTH)
    (h4 : i / DISPLAY_WIDTH < min ((t / TILES_X + 1) * TILE_SIZE) DISPLAY_HEIGHT)
    (hlen : i < buf.length) :
    (clearTile buf t)[i]? = some BLACK := by
  unfold clearTile
  refine fillRows_getElem_in _ _ (min_le_right _ _) _ _ buf i (i / DISPLAY_WIDTH)
    h3 ?_ ?_ ?_ hlen
  all_goals
    have hdm := Nat.div_add_mod i DISPLAY_WIDTH
    simp only [TILES_X, TILE_SIZE, DISPLAY_WIDTH, DISPLAY_HEIGHT] at h1 h2 h3 h4 hdm ⊢
    omega

theorem clearTile_getElem_out (buf : List Rgb565) (t i : Nat)
    (hout : ¬((t % TILES_X) * TILE_SIZE ≤ i % DISPLAY_WIDTH ∧
              i % DISPLAY_WIDTH < min ((t % TILES_X + 1) * TILE_SIZE) DISPLAY_WIDTH ∧
              (t / TILES_X) * TILE_SIZE ≤ i / DISPLAY_WIDTH ∧
              i / DISPLAY_WIDTH < min ((t / TILES_X + 1) * TILE_SIZE) DISPLAY_HEIGHT)) :
    (clearTile buf t)[i]? = buf[i]? := by
  unfold clearTile
  apply fillRows_getElem_out
  intro y hy1 hy2 hc
  apply hout
  have hdm := Nat.div_add_mod i DISPLAY_WIDTH
  have hmod := Nat.mod_lt i (show 0 < DISPLAY_WIDTH by simp [DISPLAY_WIDTH])
  simp only [TILES_X, TILE_SIZE, DISPLAY_WIDTH, DISPLAY_HEIGHT]
    at hdm hmod hc hy1 hy2 ⊢
  have hyrow : y = i / 536 := by omega
  subst hyrow
  refine ⟨by omega, by omega, by omega, by omega⟩

theorem clearTiles_length (prev : TileTracker) :
    ∀ (n : Nat) (buf : List Rgb565), (clearTiles prev buf n).length = buf.length := by
  intro n
  induction n with
  | zero => intro buf; rfl
  | succ n ih =>
    intro buf
    simp only [clearTiles]
    split
    · rw [clearTile_length, ih]
    · exact ih buf

/-- Pixels of a dirty delayed-clear tile become black. -/
theorem clearTiles_getElem_dirty (prev : TileTracker) :
    ∀ (n : Nat) (buf : List Rgb565) (i : Nat),
      i < DISPLAY_WIDTH * DISPLAY_HEIGHT → i < buf.length →
      tileOfPixel i < n → prev.is_dirty (tileOfPixel i) = true →
      (clearTiles prev buf n)[i]? = some BLACK := by
  intro n
  induction n with
  | zero => intro buf i _ _ h _; omega
  | succ n ih =>
    intro buf i hiwh hlen htn hdirty
    simp only [clearTiles]
    by_cases ht : tileOfPixel i = n
    · rw [ht] at hdirty
      rw [if_pos hdirty]
      have hq : (i % DISPLAY_WIDTH) / TILE_SIZE = n % TILES_X ∧
          (i / DISPLAY_WIDTH) / TILE_SIZE = n / TILES_X := by
        have hmod := Nat.mod_lt i (show 0 < DISPLAY_WIDTH by simp [DISPLAY_WIDTH])
        have hdiv : i / DISPLAY_WIDTH < DISPLAY_HEIGHT := by
          simp only [DISPLAY_WIDTH, DISPLAY_HEIGHT] at hiwh ⊢
          omega
        simp only [tileOfPixel, TILES_X, TILE_SIZE, DISPLAY_WIDTH, DISPLAY_HEIGHT]
          at ht hmod hdiv ⊢
        omega
      refine clearTile_getElem_in _ n i ?_ ?_ ?_ ?_ (by rw [clearTiles_length]; exact hlen)
      · simp only [TILES_X, TILE_SIZE, DISPLAY_WIDTH] at hq ⊢; omega
      · simp only [TILES_X, TILE_SIZE, DISPLAY_WIDTH] at hq ⊢; omega
      · simp only [TILES_X, TILE_SIZE, DISPLAY_WIDTH, DISPLAY_HEIGHT] at hq ⊢; omega
      · have hdiv : i / DISPLAY_WIDTH < DISPLAY_HEIGHT := by
          simp only [DISPLAY_WIDTH, DISPLAY_HEIGHT] at hiwh ⊢
          omega
        simp only [TILES_X, TILE_SIZE, DISPLAY_WIDTH, DISPLAY_HEIGHT] at hq hdiv ⊢
        omega
    · have hstep : tileOfPixel i < n := by omega
      split
      · rw [clearTile_getElem_out _ n i ?_]
        · exact ih buf i hiwh hlen hstep hdirty
        · rintro ⟨c1, c2, c3, c4⟩
          apply ht
          simp only [tileOfPixel, TILES_X, TILE_SIZE, DISPLAY_WIDTH, DISPLAY_HEIGHT]
            at c1 c2 c3 c4 ⊢
          omega
      · exact ih buf i hiwh hlen hstep hdirty

/-- Pixels whose tile is not in the delayed-clear set are untouched. -/
theorem clearTiles_getElem_clean (prev : TileTracker) :
    ∀ (n : Nat) (buf : List Rgb565) (i : Nat),
      i < DISPLAY_WIDTH * DISPLAY_HEIGHT →
      (tileOfPixel i < n → prev.is_dirty (tileOfPixel i) = false) →
      (clearTiles prev buf n)[i]? = buf[i]? := by
  intro n
  induction n with
  | zero => intro buf i _ _; rfl
  | succ n ih =>
    intro buf i hiwh hclean
    simp only [clearTiles]
    by_cases ht : tileOfPixel i = n
    · split
      · rename_i hdn
        rw [← ht] at hdn
        rw [hclean (by omega)] at hdn
        cases hdn
      · exact ih buf i hiwh (fun h => hclean (by omega))
    · split
      · rw [clearTile_getElem_out _ n i ?_]
        · exact ih buf i hiwh (fun h => hclean (by omega))
        · rintro ⟨c1, c2, c3, c4⟩
          apply ht
          simp only [tileOfPixel, TILES_X, TILE_SIZE, DISPLAY_WIDTH, DISPLAY_HEIGHT]
            at c1 c2 c3 c4 ⊢
          omega
      · exact ih buf i hiwh (fun h => hclean (by omega))

/-- One span covering a maximal run in its row, and nothing else covering
it, lifted from the single row to the whole plan. -/
theorem allRows_run_filter (isD : Nat → Bool) (ty a b : Nat) (htyY : ty < TILES_Y)
    (hrow : (spansRow isD ty).filter (coversTileRect ty a b) = [mkSpan ty a (b + 1)]) :
    ∀ n, ty < n → n ≤ TILES_Y →
      (allRows isD n).filter (coversTileRect ty a b) = [mkSpan ty a (b + 1)] := by
  intro n
  induction n with
  | zero => omega
  | succ n ih =>
    intro h1 h2
    simp only [allRows, List.filter_append]
    rcases Nat.lt_or_ge ty n with h | h
    · rw [ih h (by omega), spansRow_other_filter isD ty a b n htyY (by omega)]
      simp
    · have heq : ty = n := by omega
      subst heq
      rw [allRows_filter_ge isD ty a b ty le_rfl htyY, hrow]
      simp

/-! ### Concrete states used by the claim witnesses -/

/-- A full-size all-black pixel buffer, as allocated by `Display::new`. -/
def blankBuffer : List Rgb565 := List.replicate (DISPLAY_WIDTH * DISPLAY_HEIGHT) BLACK

/-- The display state right after `Display::new`: black buffers, both
trackers clean. -/
def initState : DisplayState :=
  ⟨blankBuffer, blankBuffer, TileTracker.new, TileTracker.new⟩

/-- A transport sink whose transfers always succeed. -/
def sendOk : Span → List Rgb565 → Bool := fun _ _ => true

/-- A transport sink whose transfers always fail. -/
def sendFail : Span → List Rgb565 → Bool := fun _ _ => false

/-- A tracker with exactly tile (0,0) dirty (a point was drawn at (5,5)). -/
def trackerTile0 : TileTracker := TileTracker.new.mark_rect 5 5 5 5

/-- A state whose current tracker has tile (0,0) dirty, about to flush. -/
def failState : DisplayState := ⟨[], [], trackerTile0, TileTracker.new⟩

/-! ### The claims -/

/-- C1: for every configuration of the current-frame dirty tile set and
the delayed-clear tile set, the spans computed by `update_with_buffer`
cover every dirty tile (a tile counts as dirty if it is dirty in the
current tracker or the delayed-clear tracker): some emitted span contains
the tile's whole clipped pixel rectangle, and every emitted span stays
inside `[0,W) x [0,H)`. -/
theorem c1_flush_spans_cover_dirty_tiles (cur prev : TileTracker) (ty tx0 : Nat)
    (hty : ty < TILES_Y) (htx : tx0 < TILES_X)
    (hd : (cur.is_dirty (ty * TILES_X + tx0) || prev.is_dirty (ty * TILES_X + tx0)) = true) :
    (∃ sp ∈ computeSpans cur prev,
        sp.x_start ≤ tx0 * TILE_SIZE ∧
        min ((tx0 + 1) * TILE_SIZE) DISPLAY_WIDTH - 1 ≤ sp.x_end ∧
        sp.y_start ≤ ty * TILE_SIZE ∧
        min ((ty + 1) * TILE_SIZE) DISPLAY_HEIGHT - 1 ≤ sp.y_end) ∧
    (∀ sp ∈ computeSpans cur prev,
        sp.x_start ≤ sp.x_end ∧ sp.x_end < DISPLAY_WIDTH ∧
        sp.y_start ≤ sp.y_end ∧ sp.y_end < DISPLAY_HEIGHT) := by
  constructor
  · have ⟨sp, hmem, hc1, hc2⟩ :=
      rowGo_covers (fun idx => cur.is_dirty idx || prev.is_dirty idx) ty
        (TILES_X + 1) 0 none tx0 (by omega) (fun s hs => by cases hs) htx hd
        (Or.inl (Nat.zero_le _))
    have ⟨hy1, hy2⟩ := rowGo_y _ ty _ _ _ sp hmem
    exact ⟨sp, mem_allRows _ ty TILES_Y hty sp hmem, hc1, hc2, hy1.le, hy2.ge⟩
  · exact allRows_bounds _ TILES_Y le_rfl

/-- C1 witness: tile (0,0) dirty in the current tracker. -/
theorem c1_witness :
    (0 < TILES_Y ∧ 0 < TILES_X ∧
      (trackerTile0.is_dirty (0 * TILES_X + 0) ||
        TileTracker.new.is_dirty (0 * TILES_X + 0)) = true) ∧
    ((∃ sp ∈ computeSpans trackerTile0 TileTracker.new,
        sp.x_start ≤ 0 * TILE_SIZE ∧
        min ((0 + 1) * TILE_SIZE) DISPLAY_WIDTH - 1 ≤ sp.x_end ∧
        sp.y_start ≤ 0 * TILE_SIZE ∧
        min ((0 + 1) * TILE_SIZE) DISPLAY_HEIGHT - 1 ≤ sp.y_end) ∧
      (∀ sp ∈ computeSpans trackerTile0 TileTracker.new,
        sp.x_start ≤ sp.x_end ∧ sp.x_end < DISPLAY_WIDTH ∧
        sp.y_start ≤ sp.y_end ∧ sp.y_end < DISPLAY_HEIGHT)) :=
  ⟨by decide, c1_flush_spans_cover_dirty_tiles trackerTile0 TileTracker.new 0 0
    (by decide) (by decide) (by decide)⟩

/-- C2: the claim says every back-buffer pixel modified by `draw_line` lies
in a tile the same call marks dirty.  The code violates this when the
endpoints are reversed: for `draw_line((100,10),(30,10))` the marking pads
`start` on the low side and `end` on the high side, so it marks only tile
columns 1..3 of row 0 and leaves tile (0,0) clean, while the rasterized
line modifies its endpoint pixel (30,10), which lies in tile (0,0) and is
accepted in-bounds by `draw_iter`.  This theorem evaluates the code at the
failing input. -/
theorem c2_draw_line_mark_misses_endpoint_tile :
    (draw_line_mark TileTracker.new 100 10 30 10).is_dirty 0 = false ∧
    (draw_line_mark TileTracker.new 100 10 30 10).is_dirty 1 = true ∧
    tileOfPixel (10 * DISPLAY_WIDTH + 30) = 0 ∧
    (draw_iter blankBuffer DISPLAY_WIDTH DISPLAY_HEIGHT
        [((30 : Int), (10 : Int), (1 : Rgb565))])[10 * DISPLAY_WIDTH + 30]? = some 1 := by
  refine ⟨by decide, by decide, by decide, ?_⟩
  have h := draw_iter_singleton_write blankBuffer 30 10 1
    (by simp [blankBuffer]) (by decide) (by decide) (by decide) (by decide)
  simpa using h

/-- C3 counterexample: the rectangle (600,0)-(600,0) lies entirely outside
the display (600 >= W), so by the claim `mark_rect` should be a no-op;
instead the saturating clamp maps it onto tile column 16 and tile (16,0)
becomes dirty. -/
theorem c3_counterexample :
    DISPLAY_WIDTH ≤ 600 ∧
    TileTracker.new.is_dirty 16 = false ∧
    (TileTracker.new.mark_rect 600 0 600 0).is_dirty 16 = true := by decide

/-- C3 (amended): `mark_rect` does not clip to an empty rectangle; it
clamps each corner coordinate to the last pixel column/row, so a rectangle
entirely outside the display marks the edge tile(s) nearest to it rather
than being a no-op.  No out-of-range tile is ever touched: a tile flag is
set afterwards exactly when it was set before or its index is an in-grid
index inside the clamped inclusive tile range. -/
theorem c3_amended_clamped_marking (t : TileTracker) (x1 y1 x2 y2 j : Nat) :
    (t.mark_rect x1 y1 x2 y2).is_dirty j = true ↔
      (t.is_dirty j = true ∨ ∃ ty tx,
        (min (min y1 y2) (DISPLAY_HEIGHT - 1)) / TILE_SIZE ≤ ty ∧
        ty ≤ (min (max y1 y2) (DISPLAY_HEIGHT - 1)) / TILE_SIZE ∧
        (min (min x1 x2) (DISPLAY_WIDTH - 1)) / TILE_SIZE ≤ tx ∧
        tx ≤ (min (max x1 x2) (DISPLAY_WIDTH - 1)) / TILE_SIZE ∧
        j = ty * TILES_X + tx ∧ j < TOTAL_TILES) :=
  mark_rect_is_dirty t x1 y1 x2 y2 j

/-- C4: a maximal horizontal run of dirty tiles `a..b` in tile row `ty`
(dirty in the current tracker or the delayed-clear set, bounded by a clean
tile or the row edge on both sides) produces exactly one span covering the
run's full pixel extent at that row's vertical extent. -/
theorem c4_run_emits_exactly_one_span (cur prev : TileTracker) (ty a b : Nat)
    (hty : ty < TILES_Y) (hab : a ≤ b) (hb : b < TILES_X)
    (hrun : ∀ u, a ≤ u → u ≤ b →
      (cur.is_dirty (ty * TILES_X + u) || prev.is_dirty (ty * TILES_X + u)) = true)
    (hleft : a = 0 ∨
      (cur.is_dirty (ty * TILES_X + (a - 1)) ||
        prev.is_dirty (ty * TILES_X + (a - 1))) = false)
    (hright : b + 1 = TILES_X ∨
      (cur.is_dirty (ty * TILES_X + (b + 1)) ||
        prev.is_dirty (ty * TILES_X + (b + 1))) = false) :
    (computeSpans cur prev).filter (coversTileRect ty a b) = [mkSpan ty a (b + 1)] := by
  have hrow := rowGo_run_filter (fun idx => cur.is_dirty idx || prev.is_dirty idx)
    ty a b hab hb hrun hleft hright (TILES_X + 1) 0 none (by omega)
    (Or.inl ⟨Nat.zero_le _, Or.inl rfl⟩)
  exact allRows_run_filter _ ty a b hty hrow TILES_Y hty le_rfl

/-- C4 witness: the isolated dirty tile (0,0) yields exactly the span
(0,0)-(31,31). -/
theorem c4_witness :
    (0 < TILES_Y ∧ 0 < TILES_X ∧
      (trackerTile0.is_dirty (0 * TILES_X + 0) ||
        TileTracker.new.is_dirty (0 * TILES_X + 0)) = true ∧
      (trackerTile0.is_dirty (0 * TILES_X + 1) ||
        TileTracker.new.is_dirty (0 * TILES_X + 1)) = false) ∧
    (computeSpans trackerTile0 TileTracker.new).filter (coversTileRect 0 0 0) =
      [mkSpan 0 0 1] :=
  ⟨by decide, c4_run_emits_exactly_one_span trackerTile0 TileTracker.new 0 0 0
    (by decide) (by decide) (by decide)
    (fun u h1 h2 => by
      have hu : u = 0 := Nat.le_zero.mp h2
      subst hu
      decide)
    (Or.inl rfl) (Or.inr (by decide))⟩

/-- C5: starting from clean trackers, drawing a point at (5,5) and
flushing emits exactly the span (0,0)-(31,31); a second flush with no
draws emits the same single span (the delayed clear of tile (0,0)); a
third flush with no draws emits zero spans. -/
theorem c5_point_flush_scenario :
    (update_with_buffer sendOk (draw_colored_point initState 5 5 7)).2.1 =
      [⟨0, 31, 0, 31⟩] ∧
    (update_with_buffer sendOk (draw_colored_point initState 5 5 7)).2.2 = true ∧
    (update_with_buffer sendOk
      (update_with_buffer sendOk (draw_colored_point initState 5 5 7)).1).2.1 =
        [⟨0, 31, 0, 31⟩] ∧
    (update_with_buffer sendOk
      (update_with_buffer sendOk (draw_colored_point initState 5 5 7)).1).2.2 = true ∧
    (update_with_buffer sendOk
      (update_with_buffer sendOk
        (update_with_buffer sendOk (draw_colored_point initState 5 5 7)).1).1).2.1 =
          ([] : List Span) := by decide

/-- C6: if some span's transfer fails during `update_with_buffer`, the
flush returns the error having attempted no span past the first failing
one (the attempted list is the prefix of the planned spans up to and
including the first failure), and neither the current dirty tracker nor
the delayed-clear tracker is modified, so the next flush plans the same
regions again. -/
theorem c6_failed_flush_preserves_trackers (send : Span → List Rgb565 → Bool)
    (st : DisplayState)
    (hfail : ∃ sp ∈ computeSpans st.current_tiles st.prev_tiles,
      send sp (spanPixels st.back_buffer sp) = false) :
    (update_with_buffer send st).2.2 = false ∧
    (update_with_buffer send st).1.current_tiles = st.current_tiles ∧
    (update_with_buffer send st).1.prev_tiles = st.prev_tiles ∧
    ∃ k sp, (computeSpans st.current_tiles st.prev_tiles)[k]? = some sp ∧
      send sp (spanPixels st.back_buffer sp) = false ∧
      (∀ j q, j < k → (computeSpans st.current_tiles st.prev_tiles)[j]? = some q →
        send q (spanPixels st.back_buffer q) = true) ∧
      (update_with_buffer send st).2.1 =
        (computeSpans st.current_tiles st.prev_tiles).take (k + 1) := by
  obtain ⟨k, sp, hget, hfailk, hpre, heq⟩ :=
    sendSpans_fail send st.back_buffer (computeSpans st.current_tiles st.prev_tiles) hfail
  refine ⟨?_, ?_, ?_, k, sp, hget, hfailk, hpre, ?_⟩ <;>
    simp [update_with_buffer, heq]

/-- C6 witness: one dirty tile, a sink that rejects every transfer. -/
theorem c6_witness :
    (∃ sp ∈ computeSpans failState.current_tiles failState.prev_tiles,
      sendFail sp (spanPixels failState.back_buffer sp) = false) ∧
    ((update_with_buffer sendFail failState).2.2 = false ∧
      (update_with_buffer sendFail failState).1.current_tiles = failState.current_tiles ∧
      (update_with_buffer sendFail failState).1.prev_tiles = failState.prev_tiles ∧
      ∃ k sp, (computeSpans failState.current_tiles failState.prev_tiles)[k]? = some sp ∧
        sendFail sp (spanPixels failState.back_buffer sp) = false ∧
        (∀ j q, j < k →
          (computeSpans failState.current_tiles failState.prev_tiles)[j]? = some q →
          sendFail q (spanPixels failState.back_buffer q) = true) ∧
        (update_with_buffer sendFail failState).2.1 =
          (computeSpans failState.current_tiles failState.prev_tiles).take (k + 1)) :=
  ⟨by decide, c6_failed_flush_preserves_trackers sendFail failState (by decide)⟩

/-- C7: `clear_buffer` blackens exactly the back-buffer pixels lying in
tiles of the delayed-clear tracker; every other back-buffer pixel, the
whole front buffer, and both trackers are unchanged. -/
theorem c7_clear_buffer_exact (st : DisplayState) (i : Nat)
    (hlen : st.back_buffer.length = DISPLAY_WIDTH * DISPLAY_HEIGHT)
    (hi : i < DISPLAY_WIDTH * DISPLAY_HEIGHT) :
    (clear_buffer st).front_buffer = st.front_buffer ∧
    (clear_buffer st).current_tiles = st.current_tiles ∧
    (clear_buffer st).prev_tiles = st.prev_tiles ∧
    (st.prev_tiles.is_dirty (tileOfPixel i) = true →
      (clear_buffer st).back_buffer[i]? = some BLACK) ∧
    (st.prev_tiles.is_dirty (tileOfPixel i) = false →
      (clear_buffer st).back_buffer[i]? = st.back_buffer[i]?) := by
  have htile : tileOfPixel i < TOTAL_TILES := by
    have e1 : i / DISPLAY_WIDTH < DISPLAY_HEIGHT := by
      simp only [DISPLAY_WIDTH, DISPLAY_HEIGHT] at hi ⊢
      omega
    have h2 : i / DISPLAY_WIDTH / TILE_SIZE < TILES_Y := by
      simp only [DISPLAY_WIDTH, DISPLAY_HEIGHT, TILE_SIZE, TILES_Y] at e1 ⊢
      omega
    have h1 : i % DISPLAY_WIDTH / TILE_SIZE < TILES_X := by
      simp only [DISPLAY_WIDTH, TILE_SIZE, TILES_X]
      omega
    simp only [tileOfPixel, TOTAL_TILES, TILES_X, TILES_Y, TILE_SIZE,
      DISPLAY_WIDTH, DISPLAY_HEIGHT] at h1 h2 ⊢
    omega
  refine ⟨rfl, rfl, rfl, ?_, ?_⟩
  · intro hdirty
    exact clearTiles_getElem_dirty st.prev_tiles TOTAL_TILES st.back_buffer i hi
      (by omega) htile hdirty
  · intro hclean
    exact clearTiles_getElem_clean st.prev_tiles TOTAL_TILES st.back_buffer i hi
      (fun _ => hclean)

/-- C7 witness: pixel 0 of the freshly initialized state. -/
theorem c7_witness :
    (initState.back_buffer.length = DISPLAY_WIDTH * DISPLAY_HEIGHT ∧
      0 < DISPLAY_WIDTH * DISPLAY_HEIGHT) ∧
    ((clear_buffer initState).front_buffer = initState.front_buffer ∧
      (clear_buffer initState).current_tiles = initState.current_tiles ∧
      (clear_buffer initState).prev_tiles = initState.prev_tiles ∧
      (initState.prev_tiles.is_dirty (tileOfPixel 0) = true →
        (clear_buffer initState).back_buffer[0]? = some BLACK) ∧
      (initState.prev_tiles.is_dirty (tileOfPixel 0) = false →
        (clear_buffer initState).back_buffer[0]? = initState.back_buffer[0]?)) :=
  ⟨⟨by simp [initState, blankBuffer], by decide⟩,
    c7_clear_buffer_exact initState 0 (by simp [initState, blankBuffer]) (by decide)⟩

/-- C8: after a flush in which every transfer succeeded, the delayed-clear
tracker equals the dirty set the current tracker held when the flush
started, the current tracker is empty, and the attempted spans are exactly
the planned ones. -/
theorem c8_successful_flush_rolls_trackers (send : Span → List Rgb565 → Bool)
    (st : DisplayState)
    (hok : ∀ sp ∈ computeSpans st.current_tiles st.prev_tiles,
      send sp (spanPixels st.back_buffer sp) = true) :
    (update_with_buffer send st).2.2 = true ∧
    (update_with_buffer send st).1.prev_tiles = st.current_tiles ∧
    (∀ idx, (update_with_buffer send st).1.prev_tiles.is_dirty idx =
      st.current_tiles.is_dirty idx) ∧
    (∀ idx, (update_with_buffer send st).1.current_tiles.is_dirty idx = false) ∧
    (update_with_buffer send st).2.1 = computeSpans st.current_tiles st.prev_tiles := by
  have heq := sendSpans_ok send st.back_buffer _ hok
  refine ⟨?_, ?_, ?_, ?_, ?_⟩ <;>
    simp [update_with_buffer, heq, TileTracker.clear, TileTracker.is_dirty]

/-- C8 witness: the freshly initialized state flushed through an
always-succeeding sink. -/
theorem c8_witness :
    (∀ sp ∈ computeSpans initState.current_tiles initState.prev_tiles,
      sendOk sp (spanPixels initState.back_buffer sp) = true) ∧
    ((update_with_buffer sendOk initState).2.2 = true ∧
      (update_with_buffer sendOk initState).1.prev_tiles = initState.current_tiles ∧
      (∀ idx, (update_with_buffer sendOk initState).1.prev_tiles.is_dirty idx =
        initState.current_tiles.is_dirty idx) ∧
      (∀ idx, (update_with_buffer sendOk initState).1.current_tiles.is_dirty idx = false) ∧
      (update_with_buffer sendOk initState).2.1 =
        computeSpans initState.current_tiles initState.prev_tiles) :=
  ⟨fun _ _ => rfl, c8_successful_flush_rolls_trackers sendOk initState (fun _ _ => rfl)⟩

/-- C9: `draw_iter` writes a pixel iff its coordinate is in bounds and is
otherwise a silent no-op (the Rust error type is `Infallible`): the buffer
keeps its length, a cell changes only if some pixel of the stream is
in-bounds and targets it, and an in-bounds pixel on a full-size buffer is
written at `y*W + x`. -/
theorem c9_pixel_write_bounds :
    (∀ (buf : List Rgb565) (ps : List PixelItem),
      (draw_iter buf DISPLAY_WIDTH DISPLAY_HEIGHT ps).length = buf.length) ∧
    (∀ (buf : List Rgb565) (ps : List PixelItem) (i : Nat),
      (∀ p ∈ ps, ¬(0 ≤ p.1 ∧ p.1 < (DISPLAY_WIDTH : Int) ∧ 0 ≤ p.2.1 ∧
          p.2.1 < (DISPLAY_HEIGHT : Int) ∧ p.2.1.toNat * DISPLAY_WIDTH + p.1.toNat = i)) →
      (draw_iter buf DISPLAY_WIDTH DISPLAY_HEIGHT ps)[i]? = buf[i]?) ∧
    (∀ (buf : List Rgb565) (x y : Int) (c : Rgb565),
      buf.length = DISPLAY_WIDTH * DISPLAY_HEIGHT →
      0 ≤ x → x < (DISPLAY_WIDTH : Int) → 0 ≤ y → y < (DISPLAY_HEIGHT : Int) →
      (draw_iter buf DISPLAY_WIDTH DISPLAY_HEIGHT
        [(x, y, c)])[y.toNat * DISPLAY_WIDTH + x.toNat]? = some c) :=
  ⟨fun buf ps => draw_iter_length _ _ ps buf,
   fun buf ps i h => draw_iter_getElem_unchanged _ _ ps buf i h,
   fun buf x y c h hx0 hx1 hy0 hy1 => draw_iter_singleton_write buf x y c h hx0 hx1 hy0 hy1⟩

/-- C9 witness: the in-bounds pixel (5,7) is written on a full-size
buffer, via the third conjunct of the claim theorem. -/
theorem c9_witness :
    (blankBuffer.length = DISPLAY_WIDTH * DISPLAY_HEIGHT ∧
      (0 : Int) ≤ 5 ∧ (5 : Int) < (DISPLAY_WIDTH : Int)) ∧
    (draw_iter blankBuffer DISPLAY_WIDTH DISPLAY_HEIGHT
      [((5 : Int), (7 : Int), (9 : Rgb565))])[(7 : Int).toNat * DISPLAY_WIDTH +
        (5 : Int).toNat]? = some 9 :=
  ⟨⟨by simp [blankBuffer], by decide, by decide⟩,
    c9_pixel_write_bounds.2.2 blankBuffer 5 7 9 (by simp [blankBuffer])
      (by decide) (by decide) (by decide) (by decide)⟩

/-- C10: every call to `update_with_buffer` exchanges the two buffers
exactly once, and the exchange is not rolled back on a failed transfer:
whatever the sink answers, afterwards the front buffer is the old back
buffer and vice versa, and the transfers read their pixel data from the
old back buffer (the post-swap front). -/
theorem c10_swap_unconditional (send : Span → List Rgb565 → Bool) (st : DisplayState) :
    (update_with_buffer send st).1.front_buffer = st.back_buffer ∧
    (update_with_buffer send st).1.back_buffer = st.front_buffer ∧
    (update_with_buffer send st).2.1 =
      (sendSpans send st.back_buffer (computeSpans st.current_tiles st.prev_tiles)).1 := by
  by_cases h : (sendSpans send st.back_buffer
      (computeSpans st.current_tiles st.prev_tiles)).2 = true
  · refine ⟨?_, ?_, ?_⟩ <;> simp [update_with_buffer, h]
  · refine ⟨?_, ?_, ?_⟩ <;> simp [update_with_buffer, h]

end PixelsRs
